import Mathlib

/-
Verification of the imap-flow transport state machines.

The definitions below are a shallow embedding of the Rust sources:
  * src/src/send_command.rs   (client command send engine)
  * src/src/send_response.rs  (server response send engine)
  * src/src/server.rs         (server peer, literal negotiation)
  * src/tasks/src/lib.rs      (response scheduler)
Machine bytes are modelled as naturals, byte buffers as lists, and the
stream-writing futures as explicit transition systems whose intermediate
states are exactly the states observable at the `await` suspension points.
-/

namespace ImapFlow

/-- Bytes on the wire. -/
abbrev Byte := Nat

/-- Command tags (`imap_types::core::Tag`). -/
abbrev Tag := String

/-- Model of `ClientFlowCommandHandle`: an opaque, equality-comparable id. -/
abbrev Handle := Nat

/-- Model of `imap_types::response::StatusKind`. -/
inductive StatusKind where
  | ok
  | no
  | bad
  deriving DecidableEq

/-- Model of `imap_types::response::StatusBody`: the kind together with the
human-readable text (the optional status code is irrelevant to the flows). -/
structure StatusBody where
  kind : StatusKind
  text : String
  deriving DecidableEq

/-- Model of `imap_types::response::Status` as consumed by `maybe_remove`. -/
inductive Status where
  | tagged (tag : Tag) (body : StatusBody)
  | untagged (body : StatusBody)
  | bye (text : String)
  deriving DecidableEq

/-- Model of `imap_types::core::LiteralMode`. -/
inductive LiteralMode where
  | sync
  | nonSync
  deriving DecidableEq

/-- Model of `imap_codec::encode::Fragment`: one unit of encoded wire output. -/
inductive Fragment where
  | line (data : List Byte)
  | literal (data : List Byte) (mode : LiteralMode)
  deriving DecidableEq

/-- Model of `imap_types::command::CommandBody`, discriminating exactly the
cases `QueuedCommand::start` branches on. -/
inductive CommandBody where
  | authenticate (mechanism : String) (initialResponse : Option (List Byte))
  | idle
  | other (name : String)
  deriving DecidableEq

/-- Model of `imap_types::command::Command`. -/
structure Command where
  tag : Tag
  body : CommandBody
  deriving DecidableEq

/-- Model of `types::CommandAuthenticate`. -/
structure CommandAuthenticate where
  tag : Tag
  mechanism : String
  initialResponse : Option (List Byte)
  deriving DecidableEq

/-- Model of `imap_types::auth::AuthenticateData`. -/
inductive AuthData where
  | continueData (data : List Byte)
  | cancel
  deriving DecidableEq

/-- Model of `send_command.rs::QueuedCommand`. -/
structure QueuedCommand where
  handle : Handle
  command : Command
  deriving DecidableEq

/-- Model of `send_command.rs::CommandActivity`. -/
inductive CommandActivity where
  | pushingFragments (acceptedLiteral : Option (List Byte))
  | waitingForFragmentsSent (limboLiteral : Option (List Byte))
  | waitingForLiteralAccepted (limboLiteral : List Byte)
  deriving DecidableEq

/-- Model of `send_command.rs::CommandState` (regular command sub-machine). -/
structure CommandSendState where
  handle : Handle
  command : Command
  fragments : List Fragment
  activity : CommandActivity
  deriving DecidableEq

/-- Model of `send_command.rs::AuthenticateActivity`. -/
inductive AuthenticateActivity where
  | pushingAuthenticate (authenticate : List Byte)
  | waitingForAuthenticateSent
  | waitingForAuthenticateResponse
  | waitingForAuthenticateDataSet
  | pushingAuthenticateData (authenticateData : List Byte)
  | waitingForAuthenticateDataSent
  deriving DecidableEq

/-- Model of `send_command.rs::AuthenticateState`. -/
structure AuthenticateSendState where
  handle : Handle
  commandAuthenticate : CommandAuthenticate
  activity : AuthenticateActivity
  deriving DecidableEq

/-- Model of `send_command.rs::IdleActivity`. -/
inductive IdleActivity where
  | pushingIdle (idle : List Byte)
  | waitingForIdleSent
  | waitingForIdleResponse
  | waitingForIdleDoneSet
  | pushingIdleDone (idleDone : List Byte)
  | waitingForIdleDoneSent
  deriving DecidableEq

/-- Model of `send_command.rs::IdleState`. -/
structure IdleSendState where
  handle : Handle
  tag : Tag
  activity : IdleActivity
  deriving DecidableEq

/-- Model of `send_command.rs::CurrentCommand`. -/
inductive CurrentCommand where
  | command (state : CommandSendState)
  | authenticate (state : AuthenticateSendState)
  | idle (state : IdleSendState)
  deriving DecidableEq

/-- Model of `send_command.rs::SendCommandTermination`. -/
inductive SendCommandTermination where
  | literalRejected (handle : Handle) (command : Command)
  | authenticateAccepted (handle : Handle) (commandAuthenticate : CommandAuthenticate)
  | authenticateRejected (handle : Handle) (commandAuthenticate : CommandAuthenticate)
  | idleRejected (handle : Handle)
  deriving DecidableEq

/-- Model of `send_command.rs::SendCommandEvent`. -/
inductive SendCommandEvent where
  | command (handle : Handle) (command : Command)
  | commandAuthenticate (handle : Handle)
  | commandIdle (handle : Handle)
  | idleDone (handle : Handle)
  deriving DecidableEq

/-- Model of `send_command.rs::SendCommandState`.  The three codecs are
modelled as function fields: `encodeCommand` stands for `CommandCodec::encode`,
`encodeAuthData` for the (single-line) `AuthenticateDataCodec::encode`, and
`idleDoneData` for the one line produced by `IdleDoneCodec::encode(&IdleDone)`. -/
structure SendCommandState where
  encodeCommand : Command → List Fragment
  encodeAuthData : AuthData → List Byte
  idleDoneData : List Byte
  queuedCommands : List QueuedCommand
  currentCommand : Option CurrentCommand
  writeBuffer : List Byte

/-- Model of `SendCommandState::enqueue`. -/
def enqueueCommand (s : SendCommandState) (h : Handle) (c : Command) : SendCommandState :=
  { s with queuedCommands := s.queuedCommands ++ [⟨h, c⟩] }

/-- Model of `SendCommandState::maybe_remove` (send_command.rs lines 62-142).
Lean is pure, so the mutated `self` is returned alongside the result. -/
def maybeRemove (s : SendCommandState) (status : Status) :
    Option SendCommandTermination × SendCommandState :=
  match s.currentCommand with
  | none => (none, s)
  | some (CurrentCommand.command st) =>
    match status with
    | Status.tagged tag body =>
      if body.kind = StatusKind.bad ∧ tag = st.command.tag then
        (some (SendCommandTermination.literalRejected st.handle st.command),
          { s with currentCommand := none })
      else (none, s)
    | _ => (none, s)
  | some (CurrentCommand.authenticate st) =>
    match status with
    | Status.tagged tag body =>
      if tag = st.commandAuthenticate.tag then
        match body.kind with
        | StatusKind.ok =>
          (some (SendCommandTermination.authenticateAccepted st.handle st.commandAuthenticate),
            { s with currentCommand := none })
        | _ =>
          (some (SendCommandTermination.authenticateRejected st.handle st.commandAuthenticate),
            { s with currentCommand := none })
      else (none, s)
    | _ => (none, s)
  | some (CurrentCommand.idle st) =>
    match status with
    | Status.tagged tag _body =>
      if tag = st.tag then
        (some (SendCommandTermination.idleRejected st.handle),
          { s with currentCommand := none })
      else (none, s)
    | _ => (none, s)

/-- Model of `SendCommandState::literal_continue` (send_command.rs lines 145-168). -/
def literalContinue (s : SendCommandState) : Bool × SendCommandState :=
  match s.currentCommand with
  | some (CurrentCommand.command st) =>
    match st.activity with
    | CommandActivity.waitingForLiteralAccepted limbo =>
      (true, { s with currentCommand := some (CurrentCommand.command
          { st with activity := CommandActivity.pushingFragments (some limbo) }) })
    | _ => (false, s)
  | _ => (false, s)

/-- Model of `SendCommandState::authenticate_continue`. -/
def authenticateContinue (s : SendCommandState) : Option Handle × SendCommandState :=
  match s.currentCommand with
  | some (CurrentCommand.authenticate st) =>
    match st.activity with
    | AuthenticateActivity.waitingForAuthenticateResponse =>
      (some st.handle, { s with currentCommand := some (CurrentCommand.authenticate
          { st with activity := AuthenticateActivity.waitingForAuthenticateDataSet }) })
    | _ => (none, s)
  | _ => (none, s)

/-- Model of `SendCommandState::set_authenticate_data`. -/
def setAuthenticateData (s : SendCommandState) (d : AuthData) :
    Except AuthData Handle × SendCommandState :=
  match s.currentCommand with
  | some (CurrentCommand.authenticate st) =>
    match st.activity with
    | AuthenticateActivity.waitingForAuthenticateDataSet =>
      (Except.ok st.handle, { s with currentCommand := some (CurrentCommand.authenticate
          { st with activity :=
              AuthenticateActivity.pushingAuthenticateData (s.encodeAuthData d) }) })
    | _ => (Except.error d, s)
  | _ => (Except.error d, s)

/-- Model of `SendCommandState::idle_continue`. -/
def idleContinue (s : SendCommandState) : Option Handle × SendCommandState :=
  match s.currentCommand with
  | some (CurrentCommand.idle st) =>
    match st.activity with
    | IdleActivity.waitingForIdleResponse =>
      (some st.handle, { s with currentCommand := some (CurrentCommand.idle
          { st with activity := IdleActivity.waitingForIdleDoneSet }) })
    | _ => (none, s)
  | _ => (none, s)

/-- Model of `SendCommandState::set_idle_done`. -/
def setIdleDone (s : SendCommandState) : Option Handle × SendCommandState :=
  match s.currentCommand with
  | some (CurrentCommand.idle st) =>
    match st.activity with
    | IdleActivity.waitingForIdleDoneSet =>
      (some st.handle, { s with currentCommand := some (CurrentCommand.idle
          { st with activity := IdleActivity.pushingIdleDone s.idleDoneData }) })
    | _ => (none, s)
  | _ => (none, s)

/-- Result of the fragment-popping loop inside `CommandState::push_to_buffer`
(send_command.rs lines 486-507): the bytes appended to the write buffer, the
sync literal (if any) that stopped the loop, and the fragments left over. -/
structure PushResult where
  bytes : List Byte
  limboLiteral : Option (List Byte)
  rest : List Fragment
  deriving DecidableEq

/-- The fragment-popping loop of `CommandState::push_to_buffer`: `Line` and
`Literal{NonSync}` data is appended; the first `Literal{Sync}` stops the loop. -/
def pushFragments : List Fragment → PushResult
  | [] => ⟨[], none, []⟩
  | Fragment.line d :: fs =>
    let r := pushFragments fs
    ⟨d ++ r.bytes, r.limboLiteral, r.rest⟩
  | Fragment.literal d LiteralMode.nonSync :: fs =>
    let r := pushFragments fs
    ⟨d ++ r.bytes, r.limboLiteral, r.rest⟩
  | Fragment.literal d LiteralMode.sync :: fs => ⟨[], some d, fs⟩

/-- Model of `CommandState::push_to_buffer` (send_command.rs lines 476-520).
Returns the extended write buffer together with the updated state. -/
def commandPushToBuffer (st : CommandSendState) (buffer : List Byte) :
    List Byte × CommandSendState :=
  match st.activity with
  | CommandActivity.pushingFragments accepted =>
    let r := pushFragments st.fragments
    (buffer ++ accepted.getD [] ++ r.bytes,
      { st with fragments := r.rest,
                activity := CommandActivity.waitingForFragmentsSent r.limboLiteral })
  | _ => (buffer, st)

/-- Model of `AuthenticateState::push_to_buffer`. -/
def authenticatePushToBuffer (st : AuthenticateSendState) (buffer : List Byte) :
    List Byte × AuthenticateSendState :=
  match st.activity with
  | AuthenticateActivity.pushingAuthenticate d =>
    (buffer ++ d, { st with activity := AuthenticateActivity.waitingForAuthenticateSent })
  | AuthenticateActivity.pushingAuthenticateData d =>
    (buffer ++ d, { st with activity := AuthenticateActivity.waitingForAuthenticateDataSent })
  | _ => (buffer, st)

/-- Model of `IdleState::push_to_buffer`. -/
def idlePushToBuffer (st : IdleSendState) (buffer : List Byte) :
    List Byte × IdleSendState :=
  match st.activity with
  | IdleActivity.pushingIdle d =>
    (buffer ++ d, { st with activity := IdleActivity.waitingForIdleSent })
  | IdleActivity.pushingIdleDone d =>
    (buffer ++ d, { st with activity := IdleActivity.waitingForIdleDoneSent })
  | _ => (buffer, st)

/-- Model of `CurrentCommand::push_to_buffer`. -/
def currentPushToBuffer (cc : CurrentCommand) (buffer : List Byte) :
    List Byte × CurrentCommand :=
  match cc with
  | CurrentCommand.command st =>
    let r := commandPushToBuffer st buffer
    (r.1, CurrentCommand.command r.2)
  | CurrentCommand.authenticate st =>
    let r := authenticatePushToBuffer st buffer
    (r.1, CurrentCommand.authenticate r.2)
  | CurrentCommand.idle st =>
    let r := idlePushToBuffer st buffer
    (r.1, CurrentCommand.idle r.2)

/-- Model of `send_command.rs::FinishSendingResult`. -/
inductive FinishResult where
  | uncompleted (state : CurrentCommand) (event : Option SendCommandEvent)
  | completed (event : SendCommandEvent)

/-- Model of `CommandState::finish_sending`. -/
def commandFinishSending (st : CommandSendState) : FinishResult :=
  match st.activity with
  | CommandActivity.waitingForFragmentsSent (some limboLiteral) =>
    FinishResult.uncompleted (CurrentCommand.command
      { st with activity := CommandActivity.waitingForLiteralAccepted limboLiteral }) none
  | CommandActivity.waitingForFragmentsSent none =>
    FinishResult.completed (SendCommandEvent.command st.handle st.command)
  | _ => FinishResult.uncompleted (CurrentCommand.command st) none

/-- Model of `AuthenticateState::finish_sending`. -/
def authenticateFinishSending (st : AuthenticateSendState) : FinishResult :=
  match st.activity with
  | AuthenticateActivity.waitingForAuthenticateSent =>
    FinishResult.uncompleted (CurrentCommand.authenticate
      { st with activity := AuthenticateActivity.waitingForAuthenticateResponse })
      (some (SendCommandEvent.commandAuthenticate st.handle))
  | AuthenticateActivity.waitingForAuthenticateDataSent =>
    FinishResult.uncompleted (CurrentCommand.authenticate
      { st with activity := AuthenticateActivity.waitingForAuthenticateResponse }) none
  | _ => FinishResult.uncompleted (CurrentCommand.authenticate st) none

/-- Model of `IdleState::finish_sending`. -/
def idleFinishSending (st : IdleSendState) : FinishResult :=
  match st.activity with
  | IdleActivity.waitingForIdleSent =>
    FinishResult.uncompleted (CurrentCommand.idle
      { st with activity := IdleActivity.waitingForIdleResponse })
      (some (SendCommandEvent.commandIdle st.handle))
  | IdleActivity.waitingForIdleDoneSent =>
    FinishResult.completed (SendCommandEvent.idleDone st.handle)
  | _ => FinishResult.uncompleted (CurrentCommand.idle st) none

/-- Model of `CurrentCommand::finish_sending`. -/
def currentFinishSending (cc : CurrentCommand) : FinishResult :=
  match cc with
  | CurrentCommand.command st => commandFinishSending st
  | CurrentCommand.authenticate st => authenticateFinishSending st
  | CurrentCommand.idle st => idleFinishSending st

/-- Extracts the single `Line` fragment an authenticate or idle command encodes
to.  The source asserts this shape and panics otherwise (`unreachable`), a path
outside every claim. -/
def theSingleLine : List Fragment → List Byte
  | [Fragment.line d] => d
  | _ => []

/-- Model of `QueuedCommand::start` (send_command.rs lines 353-405). -/
def startQueued (enc : Command → List Fragment) (q : QueuedCommand) : CurrentCommand :=
  match q.command.body with
  | CommandBody.authenticate mech ir =>
    CurrentCommand.authenticate
      { handle := q.handle,
        commandAuthenticate := { tag := q.command.tag, mechanism := mech, initialResponse := ir },
        activity := AuthenticateActivity.pushingAuthenticate (theSingleLine (enc q.command)) }
  | CommandBody.idle =>
    CurrentCommand.idle
      { handle := q.handle, tag := q.command.tag,
        activity := IdleActivity.pushingIdle (theSingleLine (enc q.command)) }
  | CommandBody.other name =>
    CurrentCommand.command
      { handle := q.handle, command := { tag := q.command.tag, body := CommandBody.other name },
        fragments := enc q.command,
        activity := CommandActivity.pushingFragments none }

/-- A send-engine state paired with a ghost flag.  The flag is true exactly
while the write buffer still holds bytes of a command that `maybe_remove`
terminated: its pushing is over for good, but the bytes await flushing
("fully pushed but not yet flushed"). -/
abbrev SendPoint := SendCommandState × Bool

/-- Target state of the `finish_sending` part of `SendCommandState::progress`
(send_command.rs lines 326-342), entered once `write_all` drained the buffer. -/
def applyFinish (s : SendCommandState) (cc : CurrentCommand) : SendCommandState :=
  match currentFinishSending cc with
  | FinishResult.uncompleted cc' _ => { s with currentCommand := some cc' }
  | FinishResult.completed _ => { s with currentCommand := none }

/-- Small-step semantics of the client send engine.  `progress` is decomposed
at its single `await`: `progressPushCurrent`/`progressStart` perform everything
up to the `stream.write_all` call (with `current_command` re-inserted, line
320), `flush` models any partial progress of `write_all` — cancelling the
future at the suspension point simply stops after some `flush` steps — and
`finishSend` fires only once the buffer is drained.  The remaining
constructors are the synchronous entry points. -/
inductive SendStep : SendPoint → SendPoint → Prop where
  | enqueue (s : SendCommandState) (g : Bool) (h : Handle) (c : Command) :
      SendStep (s, g) (enqueueCommand s h c, g)
  | progressPushCurrent (s : SendCommandState) (g : Bool) (cc : CurrentCommand)
      (hcur : s.currentCommand = some cc) :
      SendStep (s, g)
        ({ s with currentCommand := some (currentPushToBuffer cc s.writeBuffer).2,
                  writeBuffer := (currentPushToBuffer cc s.writeBuffer).1 }, false)
  | progressStart (s : SendCommandState) (g : Bool) (q : QueuedCommand)
      (rest : List QueuedCommand) (hcur : s.currentCommand = none)
      (hq : s.queuedCommands = q :: rest) :
      SendStep (s, g)
        ({ s with queuedCommands := rest,
                  currentCommand :=
                    some (currentPushToBuffer (startQueued s.encodeCommand q) s.writeBuffer).2,
                  writeBuffer :=
                    (currentPushToBuffer (startQueued s.encodeCommand q) s.writeBuffer).1 },
          false)
  | flush (s : SendCommandState) (g : Bool) (k : Nat) :
      SendStep (s, g)
        ({ s with writeBuffer := s.writeBuffer.drop k },
          if s.writeBuffer.drop k = [] then false else g)
  | finishSend (s : SendCommandState) (g : Bool) (cc : CurrentCommand)
      (hbuf : s.writeBuffer = []) (hcur : s.currentCommand = some cc) :
      SendStep (s, g) (applyFinish s cc, g)
  | maybeRemoveStep (s : SendCommandState) (g : Bool) (status : Status) :
      SendStep (s, g)
        ((maybeRemove s status).2,
          if (maybeRemove s status).1.isSome then
            !(maybeRemove s status).2.writeBuffer.isEmpty
          else g)
  | literalContinueStep (s : SendCommandState) (g : Bool) :
      SendStep (s, g) ((literalContinue s).2, g)
  | authenticateContinueStep (s : SendCommandState) (g : Bool) :
      SendStep (s, g) ((authenticateContinue s).2, g)
  | setAuthenticateDataStep (s : SendCommandState) (g : Bool) (d : AuthData) :
      SendStep (s, g) ((setAuthenticateData s d).2, g)
  | idleContinueStep (s : SendCommandState) (g : Bool) :
      SendStep (s, g) ((idleContinue s).2, g)
  | setIdleDoneStep (s : SendCommandState) (g : Bool) :
      SendStep (s, g) ((setIdleDone s).2, g)

/-- The freshly constructed send engine (`SendCommandState::new`). -/
def initSend (enc : Command → List Fragment) (encA : AuthData → List Byte)
    (idleLine : List Byte) : SendCommandState :=
  { encodeCommand := enc, encodeAuthData := encA, idleDoneData := idleLine,
    queuedCommands := [], currentCommand := none, writeBuffer := [] }

/-- States reachable from a fresh engine under any interleaving of the
operations, including cancellations at the write suspension point. -/
inductive SendReachable (enc : Command → List Fragment) (encA : AuthData → List Byte)
    (idleLine : List Byte) : SendPoint → Prop where
  | init : SendReachable enc encA idleLine (initSend enc encA idleLine, false)
  | step {p q : SendPoint} : SendReachable enc encA idleLine p → SendStep p q →
      SendReachable enc encA idleLine q

/-- Model of `send_response.rs::SendResponseState` over an abstract response
type `ρ` with encoder `encodeResponse` (the `C: Encoder` parameter). -/
structure SendResponseState (ρ : Type) where
  encodeResponse : ρ → List Fragment
  queuedResponses : List (Option Handle × ρ)
  currentResponse : Option (Option Handle × ρ)
  writeBuffer : List Byte

/-- Data carried by a fragment; `QueuedResponse::push_to_buffer` appends both
`Line` and `Literal` data unconditionally (the server never waits). -/
def fragmentData : Fragment → List Byte
  | Fragment.line d => d
  | Fragment.literal d _ => d

/-- Bytes a response contributes to the server write buffer. -/
def responseBytes {ρ : Type} (enc : ρ → List Fragment) (r : ρ) : List Byte :=
  (enc r).foldl (fun acc f => acc ++ fragmentData f) []

/-- Small-step semantics of `SendResponseState::{enqueue, progress}`
(send_response.rs lines 39-89), decomposed at the `write_all` suspension
point exactly as for the command engine. -/
inductive RespStep {ρ : Type} : SendResponseState ρ → SendResponseState ρ → Prop where
  | enqueue (s : SendResponseState ρ) (h : Option Handle) (r : ρ) :
      RespStep s { s with queuedResponses := s.queuedResponses ++ [(h, r)] }
  | startFromQueue (s : SendResponseState ρ) (entry : Option Handle × ρ)
      (rest : List (Option Handle × ρ)) (hcur : s.currentResponse = none)
      (hq : s.queuedResponses = entry :: rest) :
      RespStep s
        { s with queuedResponses := rest, currentResponse := some entry,
                 writeBuffer := s.writeBuffer ++ responseBytes s.encodeResponse entry.2 }
  | flush (s : SendResponseState ρ) (k : Nat) :
      RespStep s { s with writeBuffer := s.writeBuffer.drop k }
  | finish (s : SendResponseState ρ) (entry : Option Handle × ρ)
      (hbuf : s.writeBuffer = []) (hcur : s.currentResponse = some entry) :
      RespStep s { s with currentResponse := none }

/-- The freshly constructed response engine (`SendResponseState::new` with an
empty buffer, as on both construction sites in server.rs). -/
def initResp {ρ : Type} (enc : ρ → List Fragment) : SendResponseState ρ :=
  { encodeResponse := enc, queuedResponses := [], currentResponse := none, writeBuffer := [] }

/-- States reachable from a fresh response engine. -/
inductive RespReachable {ρ : Type} (enc : ρ → List Fragment) :
    SendResponseState ρ → Prop where
  | init : RespReachable enc (initResp enc)
  | step {p q : SendResponseState ρ} : RespReachable enc p → RespStep p q →
      RespReachable enc q

/-- Model of `server.rs::ServerFlowOptions`. -/
structure ServerFlowOptions where
  crlfRelaxed : Bool
  maxLiteralSize : Nat
  literalAcceptText : String
  literalRejectText : String
  deriving DecidableEq

/-- Modelled from the spec: the receive engine of `receive.rs`, which is not
under `src/`.  Spec 4.1: `discard_message` drops the buffered partial message
and returns its bytes for diagnostics; `start_literal(length)` makes the
engine absorb `length` raw bytes before resuming decode. -/
structure ReceiveState where
  readBuffer : List Byte
  literalExpected : Nat
  deriving DecidableEq

/-- Modelled from the spec: `ReceiveState::discard_message`. -/
def ReceiveState.discardMessage (s : ReceiveState) : List Byte × ReceiveState :=
  (s.readBuffer, { s with readBuffer := [] })

/-- Modelled from the spec: `ReceiveState::start_literal`. -/
def ReceiveState.startLiteral (s : ReceiveState) (length : Nat) : ReceiveState :=
  { s with literalExpected := length }

/-- Model of `imap_types::response::Response`, restricted to what the server
flow enqueues. -/
inductive Response where
  | status (status : Status)
  | data (data : List Byte)
  | contReq (text : String)
  deriving DecidableEq

/-- Model of `server.rs::ServerFlowError` (stream errors aside). -/
inductive ServerFlowError where
  | literalTooLong (discardedBytes : List Byte)
  | malformedMessage (discardedBytes : List Byte)
  | expectedCrlfGotLf (discardedBytes : List Byte)
  deriving DecidableEq

/-- Model of `server.rs::ServerFlowEvent`. -/
inductive ServerFlowEvent where
  | responseSent (handle : Handle) (response : Response)
  | commandReceived (command : Command)
  | commandAuthenticateReceived (commandAuthenticate : CommandAuthenticate)
  | authenticateDataReceived (authData : AuthData)
  deriving DecidableEq

/-- Model of the `LiteralFound` branch of `ServerFlow::progress_receive`
(server.rs lines 218-252).  The internal response queue is the list of
`(handle, response)` entries of `send_response_state`; internally generated
responses carry no handle. -/
def handleLiteralFound (opts : ServerFlowOptions) (recv : ReceiveState)
    (queue : List (Option Handle × Response)) (tag : Tag) (length : Nat) :
    ReceiveState × List (Option Handle × Response) ×
      Except ServerFlowError (Option ServerFlowEvent) :=
  if length > opts.maxLiteralSize then
    ((recv.discardMessage).2,
      queue ++ [(none, Response.status
        (Status.tagged tag ⟨StatusKind.no, opts.literalRejectText⟩))],
      Except.error (ServerFlowError.literalTooLong (recv.discardMessage).1))
  else
    (recv.startLiteral length,
      queue ++ [(none, Response.contReq opts.literalAcceptText)],
      Except.ok none)

/-- Model of `tasks::Task`, type-erased: the capability set `TaskAny` over a
task-state type `τ` and output type `ω`.  The `&mut self` receivers become
state-passing. -/
structure TaskIface (τ : Type) (ω : Type) where
  procData : τ → List Byte → τ × Option (List Byte)
  procUntagged : τ → StatusBody → τ × Option StatusBody
  procCont : τ → String → τ × Option String
  procContAuth : τ → String → τ × Except String AuthData
  procBye : τ → String → τ × Option String
  procTagged : τ → StatusBody → ω

/-- Model of `tasks::TaskMap`: `(handle, tag, task)` triples in queue order. -/
abbrev TaskMap (τ : Type) := List (Handle × Tag × τ)

/-- Model of `TaskMap::remove_by_handle`: removes the first entry with the
given handle, preserving the order of the rest. -/
def removeByHandle {τ : Type} (h : Handle) : TaskMap τ → Option ((Handle × Tag × τ) × TaskMap τ)
  | [] => none
  | e :: es =>
    if e.1 = h then some (e, es)
    else (removeByHandle h es).map (fun r => (r.1, e :: r.2))

/-- Model of `TaskMap::remove_by_tag`. -/
def removeByTag {τ : Type} (t : Tag) : TaskMap τ → Option ((Handle × Tag × τ) × TaskMap τ)
  | [] => none
  | e :: es =>
    if e.2.1 = t then some (e, es)
    else (removeByTag t es).map (fun r => (r.1, e :: r.2))

/-- Model of `TaskMap::get_task_by_handle_mut` composed with a call of
`process_continuation_authenticate` on the found task: the task state is
updated in place, and the call result is returned. -/
def applyContAuth {τ ω : Type} (iface : TaskIface τ ω) (h : Handle) (cont : String) :
    TaskMap τ → Option (TaskMap τ × Except String AuthData)
  | [] => none
  | e :: es =>
    if e.1 = h then
      some ((e.1, e.2.1, (iface.procContAuth e.2.2 cont).1) :: es,
        (iface.procContAuth e.2.2 cont).2)
    else (applyContAuth iface h cont es).map (fun p => (e :: p.1, p.2))

/-- Model of `tasks::SchedulerEvent`. -/
inductive SchedulerEvent (ω : Type) where
  | taskFinished (handle : Handle) (output : Option ω)
  | unsolicited (response : Response)

/-- Calls the scheduler makes back into the owned `ClientFlow` while handling
one event. -/
inductive FlowCall where
  | setAuthData (d : AuthData)
  deriving DecidableEq

/-- Model of the `ContinuationAuthenticateReceived` arm of `Scheduler::progress`
(tasks/src/lib.rs lines 151-162).  `none` models the `unwrap` panic when the
handle is not active.  The third component records the calls made back into the
client flow: the source makes none — in particular the `Ok` value of
`process_continuation_authenticate` is dropped without a
`set_authenticate_data` call. -/
def schedContAuthArm {τ ω : Type} (iface : TaskIface τ ω) (active : TaskMap τ)
    (h : Handle) (cont : String) :
    Option (TaskMap τ × Option (SchedulerEvent ω) × List FlowCall) :=
  (applyContAuth iface h cont active).map fun p =>
    match p.2 with
    | Except.error c => (p.1, some (SchedulerEvent.unsolicited (Response.contReq c)), [])
    | Except.ok _ => (p.1, none, [])

/-- Model of the `CommandRejected` arm of `Scheduler::progress` (tasks/src/lib.rs
lines 134-146): extract the tagged body (`unreachable` otherwise), remove the
task from the ACTIVE map (`unwrap`), call `process_tagged`, return
`TaskFinished`.  `none` models the two panic paths. -/
def schedCommandRejectedArm {τ ω : Type} (iface : TaskIface τ ω) (active : TaskMap τ)
    (h : Handle) (status : Status) :
    Option (TaskMap τ × SchedulerEvent ω) :=
  match status with
  | Status.tagged _ body =>
    (removeByHandle h active).map fun p =>
      (p.2, SchedulerEvent.taskFinished h (some (iface.procTagged p.1.2.2 body)))
  | _ => none

/-- Model of `tasks::trickle_down` (tasks/src/lib.rs lines 389-407): offer the
value to each consumer in order; a consumer that returns `none` has consumed it
and the iteration stops, leaving the remaining consumers untouched. -/
def trickleDown {γ α : Type} (f : γ → α → γ × Option α) (t : α) :
    List γ → List γ × Option α
  | [] => ([], some t)
  | c :: cs =>
    match f c t with
    | (c', none) => (c' :: cs, none)
    | (c', some t') =>
      let r := trickleDown f t' cs
      (c' :: r.1, r.2)

/-- Lifts a task capability to the `(handle, tag, task)` triples of the active
map, mirroring `active_tasks.tasks_mut()`. -/
def onTask {τ α : Type} (f : τ → α → τ × Option α) :
    (Handle × Tag × τ) → α → (Handle × Tag × τ) × Option α :=
  fun e v => ((e.1, e.2.1, (f e.2.2 v).1), (f e.2.2 v).2)

/-- Model of the `DataReceived` arm of `Scheduler::progress` (tasks/src/lib.rs
lines 189-197): trickle the data through the active tasks; if nobody consumes
it, emit `Unsolicited`. -/
def schedDataArm {τ ω : Type} (iface : TaskIface τ ω) (active : TaskMap τ)
    (d : List Byte) : TaskMap τ × Option (SchedulerEvent ω) :=
  match trickleDown (onTask iface.procData) d active with
  | (act', some d') => (act', some (SchedulerEvent.unsolicited (Response.data d')))
  | (act', none) => (act', none)

/-- Model of the untagged-`Status` arm of `Scheduler::progress` (tasks/src/lib.rs
lines 209-220). -/
def schedUntaggedArm {τ ω : Type} (iface : TaskIface τ ω) (active : TaskMap τ)
    (body : StatusBody) : TaskMap τ × Option (SchedulerEvent ω) :=
  match trickleDown (onTask iface.procUntagged) body active with
  | (act', some b') =>
    (act', some (SchedulerEvent.unsolicited (Response.status (Status.untagged b'))))
  | (act', none) => (act', none)

/-- Flattened data of a fragment list, in order. -/
def flatData : List Fragment → List Byte
  | [] => []
  | f :: fs => fragmentData f ++ flatData fs

/-- Whether a fragment is a synchronizing literal. -/
def fragSync : Fragment → Bool
  | Fragment.literal _ LiteralMode.sync => true
  | _ => false

/-- Whether a fragment list contains no synchronizing literal. -/
def noSyncFragments (l : List Fragment) : Bool := l.all (fun f => !fragSync f)

lemma pushFragments_append_noSync :
    ∀ (l rest : List Fragment), noSyncFragments l = true →
    pushFragments (l ++ rest) =
      ⟨flatData l ++ (pushFragments rest).bytes, (pushFragments rest).limboLiteral,
        (pushFragments rest).rest⟩ := by
  intro l
  induction l with
  | nil => intro rest _; simp [flatData, pushFragments]
  | cons f fs ih =>
    intro rest h
    have h' : noSyncFragments fs = true := by
      simp only [noSyncFragments, List.all_cons, Bool.and_eq_true] at h
      exact h.2
    cases f with
    | line d =>
      simp [pushFragments, flatData, fragmentData, ih rest h', List.append_assoc]
    | literal d mode =>
      cases mode with
      | nonSync =>
        simp [pushFragments, flatData, fragmentData, ih rest h', List.append_assoc]
      | sync =>
        exfalso
        simp [noSyncFragments, fragSync] at h

lemma pushFragments_all_noSync (l : List Fragment) (h : noSyncFragments l = true) :
    pushFragments l = ⟨flatData l, none, []⟩ := by
  have := pushFragments_append_noSync l [] h
  simpa [pushFragments] using this

lemma pushFragments_sync_split (pre : List Fragment) (d : List Byte) (rest : List Fragment)
    (h : noSyncFragments pre = true) :
    pushFragments (pre ++ Fragment.literal d LiteralMode.sync :: rest) =
      ⟨flatData pre, some d, rest⟩ := by
  have := pushFragments_append_noSync pre (Fragment.literal d LiteralMode.sync :: rest) h
  simpa [pushFragments] using this

lemma maybeRemove_spec (s : SendCommandState) (status : Status) :
    maybeRemove s status = (none, s) ∨
      (s.currentCommand.isSome = true ∧
        ∃ t, maybeRemove s status = (some t, { s with currentCommand := none })) := by
  unfold maybeRemove
  split
  · exact Or.inl rfl
  case _ st heq =>
    cases status with
    | tagged tag body =>
      by_cases hc : body.kind = StatusKind.bad ∧ tag = st.command.tag
      · exact Or.inr ⟨by simp [heq],
          SendCommandTermination.literalRejected st.handle st.command, by simp [hc]⟩
      · exact Or.inl (by simp [hc])
    | untagged body => exact Or.inl rfl
    | bye text => exact Or.inl rfl
  case _ st heq =>
    cases status with
    | tagged tag body =>
      by_cases hc : tag = st.commandAuthenticate.tag
      · cases hk : body.kind
        · exact Or.inr ⟨by simp [heq],
            SendCommandTermination.authenticateAccepted st.handle st.commandAuthenticate,
            by simp [hc, hk]⟩
        · exact Or.inr ⟨by simp [heq],
            SendCommandTermination.authenticateRejected st.handle st.commandAuthenticate,
            by simp [hc, hk]⟩
        · exact Or.inr ⟨by simp [heq],
            SendCommandTermination.authenticateRejected st.handle st.commandAuthenticate,
            by simp [hc, hk]⟩
      · exact Or.inl (by simp [hc])
    | untagged body => exact Or.inl rfl
    | bye text => exact Or.inl rfl
  case _ st heq =>
    cases status with
    | tagged tag body =>
      by_cases hc : tag = st.tag
      · exact Or.inr ⟨by simp [heq],
          SendCommandTermination.idleRejected st.handle, by simp [hc]⟩
      · exact Or.inl (by simp [hc])
    | untagged body => exact Or.inl rfl
    | bye text => exact Or.inl rfl

lemma literalContinue_frame (s : SendCommandState) :
    (literalContinue s).2 = s ∨
      ∃ cc, (literalContinue s).2 = { s with currentCommand := some cc } := by
  unfold literalContinue
  split
  · split
    · exact Or.inr ⟨_, rfl⟩
    · exact Or.inl rfl
  · exact Or.inl rfl

lemma authenticateContinue_frame (s : SendCommandState) :
    (authenticateContinue s).2 = s ∨
      ∃ cc, (authenticateContinue s).2 = { s with currentCommand := some cc } := by
  unfold authenticateContinue
  split
  · split
    · exact Or.inr ⟨_, rfl⟩
    · exact Or.inl rfl
  · exact Or.inl rfl

lemma setAuthenticateData_frame (s : SendCommandState) (d : AuthData) :
    (setAuthenticateData s d).2 = s ∨
      ∃ cc, (setAuthenticateData s d).2 = { s with currentCommand := some cc } := by
  unfold setAuthenticateData
  split
  · split
    · exact Or.inr ⟨_, rfl⟩
    · exact Or.inl rfl
  · exact Or.inl rfl

lemma idleContinue_frame (s : SendCommandState) :
    (idleContinue s).2 = s ∨
      ∃ cc, (idleContinue s).2 = { s with currentCommand := some cc } := by
  unfold idleContinue
  split
  · split
    · exact Or.inr ⟨_, rfl⟩
    · exact Or.inl rfl
  · exact Or.inl rfl

lemma setIdleDone_frame (s : SendCommandState) :
    (setIdleDone s).2 = s ∨
      ∃ cc, (setIdleDone s).2 = { s with currentCommand := some cc } := by
  unfold setIdleDone
  split
  · split
    · exact Or.inr ⟨_, rfl⟩
    · exact Or.inl rfl
  · exact Or.inl rfl

lemma applyFinish_writeBuffer (s : SendCommandState) (cc : CurrentCommand) :
    (applyFinish s cc).writeBuffer = s.writeBuffer := by
  unfold applyFinish
  split <;> rfl

lemma trickleDown_append {γ α : Type} (f : γ → α → γ × Option α) (t : α)
    (xs ys : List γ) :
    trickleDown f t (xs ++ ys) =
      match trickleDown f t xs with
      | (xs', none) => (xs' ++ ys, none)
      | (xs', some t') => (xs' ++ (trickleDown f t' ys).1, (trickleDown f t' ys).2) := by
  induction xs generalizing t with
  | nil => simp [trickleDown]
  | cons c cs ih =>
    simp only [List.cons_append, trickleDown]
    rcases hf : f c t with ⟨c', r⟩
    cases r with
    | none => simp
    | some t' =>
      simp only [List.append_eq]
      rw [ih t']
      rcases hx : trickleDown f t' cs with ⟨cs', rx⟩
      cases rx <;> simp

/-- A demo regular command used by concrete witnesses. -/
def demoCommand : Command := ⟨"A1", CommandBody.other "LOGIN"⟩

/-- C1: while a regular command is in `PushingFragments`, the accepted literal
(if any) is appended first, then `Line` and `Literal{NonSync}` fragment bytes
in order; the first `Literal{Sync}` fragment stops pushing with its bytes NOT
appended, held as the limbo literal of `WaitingForFragmentsSent`; and
`literal_continue` is what moves a limbo literal (waiting in
`WaitingForLiteralAccepted`) into `accepted_literal`, so a sync literal's bytes
reach the write buffer only after the matching continuation request was
recorded. -/
theorem claim_C1 (h : Handle) (c : Command) (accepted : Option (List Byte))
    (pre : List Fragment) (d : List Byte) (rest : List Fragment) (buffer : List Byte)
    (hpre : noSyncFragments pre = true) :
    commandPushToBuffer ⟨h, c, pre ++ Fragment.literal d LiteralMode.sync :: rest,
        CommandActivity.pushingFragments accepted⟩ buffer
      = (buffer ++ accepted.getD [] ++ flatData pre,
         ⟨h, c, rest, CommandActivity.waitingForFragmentsSent (some d)⟩) ∧
    (∀ fs : List Fragment, noSyncFragments fs = true →
      commandPushToBuffer ⟨h, c, fs, CommandActivity.pushingFragments accepted⟩ buffer
        = (buffer ++ accepted.getD [] ++ flatData fs,
           ⟨h, c, [], CommandActivity.waitingForFragmentsSent none⟩)) ∧
    (∀ s : SendCommandState, ∀ fs : List Fragment,
      s.currentCommand = some (CurrentCommand.command
        ⟨h, c, fs, CommandActivity.waitingForLiteralAccepted d⟩) →
      literalContinue s = (true, { s with currentCommand := some (CurrentCommand.command
        ⟨h, c, fs, CommandActivity.pushingFragments (some d)⟩) })) := by
  refine ⟨?_, ?_, ?_⟩
  · simp [commandPushToBuffer, pushFragments_sync_split pre d rest hpre]
  · intro fs hfs
    simp [commandPushToBuffer, pushFragments_all_noSync fs hfs]
  · intro s fs hcur
    simp [literalContinue, hcur]

theorem claim_C1_witness :
    commandPushToBuffer ⟨7, demoCommand,
        [Fragment.line [1], Fragment.literal [2] LiteralMode.sync, Fragment.line [3]],
        CommandActivity.pushingFragments (some [9])⟩ [0]
      = ([0, 9, 1], ⟨7, demoCommand, [Fragment.line [3]],
          CommandActivity.waitingForFragmentsSent (some [2])⟩) :=
  (claim_C1 7 demoCommand (some [9]) [Fragment.line [1]] [2] [Fragment.line [3]] [0]
    (by decide)).1

/-- C7: a `Literal{NonSync}` fragment behaves exactly like a `Line`: its bytes
are appended to the write buffer in the same push as the preceding line, the
sub-machine continues through the remaining fragments, and it never enters
`WaitingForLiteralAccepted` for that literal — no continuation request is
required. -/
theorem claim_C7 (h : Handle) (c : Command) (accepted : Option (List Byte))
    (pre : List Fragment) (d : List Byte) (rest : List Fragment) (buffer : List Byte)
    (hpre : noSyncFragments pre = true) :
    commandPushToBuffer ⟨h, c, pre ++ Fragment.literal d LiteralMode.nonSync :: rest,
        CommandActivity.pushingFragments accepted⟩ buffer
      = (buffer ++ accepted.getD [] ++ flatData pre ++ d ++ (pushFragments rest).bytes,
         ⟨h, c, (pushFragments rest).rest,
           CommandActivity.waitingForFragmentsSent (pushFragments rest).limboLiteral⟩) := by
  have hsplit :=
    pushFragments_append_noSync pre (Fragment.literal d LiteralMode.nonSync :: rest) hpre
  simp only [pushFragments] at hsplit
  simp [commandPushToBuffer, hsplit, List.append_assoc]

theorem claim_C7_witness :
    commandPushToBuffer ⟨7, demoCommand,
        [Fragment.line [1], Fragment.literal [2] LiteralMode.nonSync, Fragment.line [3]],
        CommandActivity.pushingFragments none⟩ []
      = ([1, 2, 3], ⟨7, demoCommand, [],
          CommandActivity.waitingForFragmentsSent none⟩) :=
  claim_C7 7 demoCommand none [Fragment.line [1]] [2] [Fragment.line [3]] [] (by decide)

/-- C9: `maybe_remove` is atomic on the no-termination path — whenever it
returns `none` (untagged status, mismatched tag, or a non-triggering kind) the
whole send state is exactly as before the call — and it removes the current
command if and only if it returns a termination. -/
theorem claim_C9 (s : SendCommandState) (status : Status) :
    ((maybeRemove s status).1 = none → (maybeRemove s status).2 = s) ∧
    ((maybeRemove s status).1.isSome = true →
      s.currentCommand.isSome = true ∧
      (maybeRemove s status).2 = { s with currentCommand := none }) ∧
    (∀ body, status = Status.untagged body → (maybeRemove s status).1 = none) ∧
    (∀ text, status = Status.bye text → (maybeRemove s status).1 = none) ∧
    (∀ st tag body, s.currentCommand = some (CurrentCommand.command st) →
      status = Status.tagged tag body →
      ¬(body.kind = StatusKind.bad ∧ tag = st.command.tag) →
      (maybeRemove s status).1 = none) := by
  refine ⟨?_, ?_, ?_, ?_, ?_⟩
  · intro h
    rcases maybeRemove_spec s status with hn | ⟨hs, t, ht⟩
    · rw [hn]
    · rw [ht] at h
      exact absurd h (by simp)
  · intro h
    rcases maybeRemove_spec s status with hn | ⟨hs, t, ht⟩
    · rw [hn] at h
      exact absurd h (by simp)
    · exact ⟨hs, by rw [ht]⟩
  · rintro body rfl
    unfold maybeRemove
    split <;> rfl
  · rintro text rfl
    unfold maybeRemove
    split <;> rfl
  · rintro st tag body hcur rfl hneg
    simp [maybeRemove, hcur, hneg]

theorem claim_C9_witness :
    (maybeRemove (initSend (fun _ => []) (fun _ => []) [])
        (Status.untagged ⟨StatusKind.ok, "x"⟩)).1 = none :=
  (claim_C9 (initSend (fun _ => []) (fun _ => []) [])
    (Status.untagged ⟨StatusKind.ok, "x"⟩)).2.2.1 ⟨StatusKind.ok, "x"⟩ rfl

/-- An idle command whose continuation request was just received: the embedder
has been told `IdleAccepted` and the sub-machine waits for `set_idle_done`. -/
def preIdleState : SendCommandState :=
  { encodeCommand := fun _ => [], encodeAuthData := fun _ => [],
    idleDoneData := [68, 79, 78, 69],
    queuedCommands := [], writeBuffer := [],
    currentCommand := some (CurrentCommand.idle
      ⟨5, "A1", IdleActivity.waitingForIdleResponse⟩) }

/-- The state after `idle_continue` accepted the continuation. -/
def idleDemoState : SendCommandState :=
  { encodeCommand := fun _ => [], encodeAuthData := fun _ => [],
    idleDoneData := [68, 79, 78, 69],
    queuedCommands := [], writeBuffer := [],
    currentCommand := some (CurrentCommand.idle
      ⟨5, "A1", IdleActivity.waitingForIdleDoneSet⟩) }

/-- C3 counterexample: after the idle continuation has been accepted (the
state reached by `idle_continue`, i.e. the idle-done phase), a tagged `OK`
matching the idle command still terminates it as `IdleRejected`: the source's
idle branch of `maybe_remove` never inspects the idle activity, contradicting
the claim that such a status is left to be surfaced as a regular tagged
status. -/
theorem claim_C3_counterexample :
    idleContinue preIdleState = (some 5, idleDemoState) ∧
    (maybeRemove idleDemoState (Status.tagged "A1" ⟨StatusKind.ok, "done"⟩)).1
      = some (SendCommandTermination.idleRejected 5) :=
  ⟨rfl, rfl⟩

/-- C3 amended: while an idle command is in flight, `maybe_remove` returns
`IdleRejected` for EVERY tagged status whose tag matches the idle command,
regardless of whether the continuation request has been accepted; a matching
tagged status is surfaced as a regular status only once the idle-done has been
completely sent and the command removed.  A mismatched tag leaves the state
untouched. -/
theorem claim_C3_amended (s : SendCommandState) (st : IdleSendState) (tag : Tag)
    (body : StatusBody) (hcur : s.currentCommand = some (CurrentCommand.idle st)) :
    (tag = st.tag →
      maybeRemove s (Status.tagged tag body)
        = (some (SendCommandTermination.idleRejected st.handle),
           { s with currentCommand := none })) ∧
    (tag ≠ st.tag → maybeRemove s (Status.tagged tag body) = (none, s)) := by
  constructor
  · intro ht
    simp [maybeRemove, hcur, ht]
  · intro ht
    simp [maybeRemove, hcur, ht]

theorem claim_C3_amended_witness :
    maybeRemove idleDemoState (Status.tagged "A1" ⟨StatusKind.no, "nope"⟩)
      = (some (SendCommandTermination.idleRejected 5),
         { idleDemoState with currentCommand := none }) :=
  (claim_C3_amended idleDemoState ⟨5, "A1", IdleActivity.waitingForIdleDoneSet⟩
    "A1" ⟨StatusKind.no, "nope"⟩ rfl).1 rfl

/-- C4: on `LiteralFound{tag, length}` the server rejects if and only if
`length` strictly exceeds `max_literal_size`: it discards the buffered partial
message, enqueues an internal (no handle) tagged `NO` carrying
`literal_reject_text`, and returns `LiteralTooLong` with the discarded bytes;
otherwise — including `length = max_literal_size` — it enqueues an internal
continuation request carrying `literal_accept_text`, calls
`start_literal(length)`, and returns no event so decoding continues. -/
theorem claim_C4 (opts : ServerFlowOptions) (recv : ReceiveState)
    (queue : List (Option Handle × Response)) (tag : Tag) (length : Nat) :
    (length > opts.maxLiteralSize →
      handleLiteralFound opts recv queue tag length
        = ({ recv with readBuffer := [] },
           queue ++ [(none, Response.status
             (Status.tagged tag ⟨StatusKind.no, opts.literalRejectText⟩))],
           Except.error (ServerFlowError.literalTooLong recv.readBuffer))) ∧
    (length ≤ opts.maxLiteralSize →
      handleLiteralFound opts recv queue tag length
        = ({ recv with literalExpected := length },
           queue ++ [(none, Response.contReq opts.literalAcceptText)],
           Except.ok none)) := by
  constructor
  · intro h
    simp [handleLiteralFound, h, ReceiveState.discardMessage]
  · intro h
    simp [handleLiteralFound, Nat.not_lt.mpr h, ReceiveState.startLiteral]

/-- Demo server options with a 5-byte literal limit. -/
def demoOpts : ServerFlowOptions := ⟨true, 5, "go ahead", "too long"⟩

theorem claim_C4_witness :
    handleLiteralFound demoOpts ⟨[9, 9], 0⟩ [] "A1" 5
      = (⟨[9, 9], 5⟩, [(none, Response.contReq "go ahead")], Except.ok none) :=
  (claim_C4 demoOpts ⟨[9, 9], 0⟩ [] "A1" 5).2 (by decide)

/-- A demo task used by the scheduler witnesses: it declines every response and
answers every authenticate continuation with the data `"a"`. -/
def demoTaskIface : TaskIface Unit Unit where
  procData := fun s d => (s, some d)
  procUntagged := fun s b => (s, some b)
  procCont := fun s c => (s, some c)
  procContAuth := fun s _ => (s, Except.ok (AuthData.continueData [97]))
  procBye := fun s b => (s, some b)
  procTagged := fun _ _ => ()

/-- C2: evidence for the code bug.  In the `ContinuationAuthenticateReceived`
arm the scheduler looks up the active task and calls
`process_continuation_authenticate`; when the task hands the continuation back
(`Err`) it emits `Unsolicited`, but when the task returns authenticate data
(`Ok(data)`) the arm makes NO call back into the client flow — the data is
dropped instead of being delivered via `set_authenticate_data`.  The first
conjunct evaluates the arm at a task that returns data: the active set is
unchanged, no event is emitted, and the recorded list of flow calls is empty.
The second conjunct shows the arm never performs a flow call at all. -/
theorem claim_C2 :
    schedContAuthArm demoTaskIface [(7, "A1", ())] 7 "+"
      = some ([(7, "A1", ())], none, []) ∧
    (∀ (τ ω : Type) (iface : TaskIface τ ω) (active : TaskMap τ) (h : Handle)
       (cont : String) (out : TaskMap τ × Option (SchedulerEvent ω) × List FlowCall),
      schedContAuthArm iface active h cont = some out → out.2.2 = []) := by
  constructor
  · rfl
  · intro τ ω iface active h cont out hout
    rcases ha : applyContAuth iface h cont active with _ | ⟨act', r⟩
    · simp [schedContAuthArm, ha] at hout
    · cases r with
      | error c =>
        simp [schedContAuthArm, ha] at hout
        subst hout
        rfl
      | ok d =>
        simp [schedContAuthArm, ha] at hout
        subst hout
        rfl

theorem claim_C2_witness :
    (([(7, "A1", ())] : TaskMap Unit), (none : Option (SchedulerEvent Unit)),
      ([] : List FlowCall)).2.2 = ([] : List FlowCall) :=
  claim_C2.2 Unit Unit demoTaskIface [(7, "A1", ())] 7 "+"
    ([(7, "A1", ())], none, []) rfl

/-- C5: evidence for the code bug.  `CommandRejected` stems from the
`LiteralRejected` termination of `maybe_remove`, which (second conjunct) fires
only while the rejected command is still the CURRENT command of the send
engine — i.e. before its `CommandSent` completion event, so the scheduler, which
moves tasks from waiting to active only on `CommandSent`/`AuthenticateStarted`,
still holds the task in `waiting_tasks`.  The first conjunct evaluates the
`CommandRejected` arm in that situation (active set without the handle): the
lookup fails, so the source's `unwrap` panics instead of finishing the task. -/
theorem claim_C5 :
    schedCommandRejectedArm demoTaskIface ([] : TaskMap Unit) 7
        (Status.tagged "A1" ⟨StatusKind.bad, "rejected"⟩) = none ∧
    (∀ (s : SendCommandState) (status : Status) (h : Handle) (c : Command),
      (maybeRemove s status).1 = some (SendCommandTermination.literalRejected h c) →
      ∃ st : CommandSendState, s.currentCommand = some (CurrentCommand.command st) ∧
        st.handle = h ∧ st.command = c) := by
  constructor
  · rfl
  · intro s status h c hres
    rcases hcur : s.currentCommand with _ | cc
    · simp [maybeRemove, hcur] at hres
    · cases cc with
      | command st =>
        cases status with
        | tagged tag body =>
          by_cases hc : body.kind = StatusKind.bad ∧ tag = st.command.tag
          · simp [maybeRemove, hcur, hc] at hres
            exact ⟨st, rfl, hres.1, hres.2⟩
          · simp [maybeRemove, hcur, hc] at hres
        | untagged body => simp [maybeRemove, hcur] at hres
        | bye text => simp [maybeRemove, hcur] at hres
      | authenticate st =>
        cases status with
        | tagged tag body =>
          by_cases hc : tag = st.commandAuthenticate.tag
          · cases hk : body.kind <;> simp [maybeRemove, hcur, hc, hk] at hres
          · simp [maybeRemove, hcur, hc] at hres
        | untagged body => simp [maybeRemove, hcur] at hres
        | bye text => simp [maybeRemove, hcur] at hres
      | idle st =>
        cases status with
        | tagged tag body =>
          by_cases hc : tag = st.tag
          · simp [maybeRemove, hcur, hc] at hres
          · simp [maybeRemove, hcur, hc] at hres
        | untagged body => simp [maybeRemove, hcur] at hres
        | bye text => simp [maybeRemove, hcur] at hres

/-- A send state whose current command is a regular command awaiting literal
acceptance; its `CommandSent` has therefore not been emitted yet. -/
def limboSendState : SendCommandState :=
  { encodeCommand := fun _ => [], encodeAuthData := fun _ => [], idleDoneData := [],
    queuedCommands := [], writeBuffer := [],
    currentCommand := some (CurrentCommand.command
      ⟨7, demoCommand, [], CommandActivity.waitingForLiteralAccepted [2]⟩) }

theorem claim_C5_witness :
    ∃ st : CommandSendState,
      limboSendState.currentCommand = some (CurrentCommand.command st) ∧
      st.handle = 7 ∧ st.command = demoCommand :=
  claim_C5.2 limboSendState (Status.tagged "A1" ⟨StatusKind.bad, "go away"⟩)
    7 demoCommand rfl

/-- C6: the trickle discipline of the scheduler.  First conjunct: if every
consumer before `c` declines (possibly transforming the value) and `c`
consumes, the iteration stops at `c` — the consumers after it are returned
untouched, so at most one consumer consumes the value and nobody after the
consumer is offered it.  The remaining conjuncts tie `trickle_down` to the
untagged `Data`/`Status` arms of `Scheduler::progress`: an unconsumed value is
surfaced as `Unsolicited` with exactly the trickled value, a consumed one
produces no event. -/
theorem claim_C6 :
    (∀ (γ α : Type) (f : γ → α → γ × Option α) (t t' : α) (pre pre' : List γ)
       (c c' : γ) (post : List γ),
      trickleDown f t pre = (pre', some t') → f c t' = (c', none) →
      trickleDown f t (pre ++ c :: post) = (pre' ++ c' :: post, none)) ∧
    (∀ (τ ω : Type) (iface : TaskIface τ ω) (active act' : TaskMap τ)
       (d d' : List Byte),
      trickleDown (onTask iface.procData) d active = (act', some d') →
      schedDataArm iface active d
        = (act', some (SchedulerEvent.unsolicited (Response.data d')))) ∧
    (∀ (τ ω : Type) (iface : TaskIface τ ω) (active act' : TaskMap τ) (d : List Byte),
      trickleDown (onTask iface.procData) d active = (act', none) →
      schedDataArm iface active d = (act', none)) ∧
    (∀ (τ ω : Type) (iface : TaskIface τ ω) (active act' : TaskMap τ)
       (body body' : StatusBody),
      trickleDown (onTask iface.procUntagged) body active = (act', some body') →
      schedUntaggedArm iface active body
        = (act', some (SchedulerEvent.unsolicited
            (Response.status (Status.untagged body'))))) := by
  refine ⟨?_, ?_, ?_, ?_⟩
  · intro γ α f t t' pre pre' c c' post hpre hc
    rw [trickleDown_append f t pre (c :: post), hpre]
    simp [trickleDown, hc]
  · intro τ ω iface active act' d d' htr
    simp [schedDataArm, htr]
  · intro τ ω iface active act' d htr
    simp [schedDataArm, htr]
  · intro τ ω iface active act' body body' htr
    simp [schedUntaggedArm, htr]

theorem claim_C6_witness :
    trickleDown (fun c t => (c + t, if c = 1 then none else some (t + 1))) 5 [0, 1, 9]
      = ([5, 7, 9], none) :=
  claim_C6.1 Nat Nat (fun c t => (c + t, if c = 1 then none else some (t + 1)))
    5 6 [0] [5] 1 7 [9] (by decide) (by decide)

/-- The C8 invariant: the write buffer is non-empty only while a current
command exists, or (ghost flag) while the buffered message was fully pushed —
its command was terminated, no more of its bytes will ever be pushed — but the
bytes are not yet flushed. -/
def sendBufInv (p : SendPoint) : Prop :=
  p.1.writeBuffer ≠ [] → p.1.currentCommand.isSome = true ∨ p.2 = true

/-- C8: in every state of the client send engine reachable under any
interleaving of enqueue, progress (including progress futures cancelled at the
write suspension point, which is exactly the state after a `flush` step),
`literal_continue`, `authenticate_continue`, `set_authenticate_data`,
`idle_continue`, `set_idle_done` and `maybe_remove`, the write buffer is
non-empty only while `current_command` is `Some`, or while the buffered
message has been fully pushed but not yet flushed. -/
theorem claim_C8 (enc : Command → List Fragment) (encA : AuthData → List Byte)
    (idleLine : List Byte) (p : SendPoint)
    (hreach : SendReachable enc encA idleLine p) : sendBufInv p := by
  induction hreach with
  | init => intro hbuf; exact absurd rfl hbuf
  | step hr hs ih =>
    cases hs with
    | enqueue s g h c =>
      intro hbuf
      exact ih hbuf
    | progressPushCurrent s g cc hcur =>
      intro hbuf
      exact Or.inl rfl
    | progressStart s g q rest hcur hq =>
      intro hbuf
      exact Or.inl rfl
    | flush s g k =>
      intro hbuf
      have hold : s.writeBuffer ≠ [] := by
        intro h0
        apply hbuf
        show s.writeBuffer.drop k = []
        simp [h0]
      rcases ih hold with hc | hg
      · exact Or.inl hc
      · by_cases hd : s.writeBuffer.drop k = []
        · exact absurd hd hbuf
        · right
          show (if s.writeBuffer.drop k = [] then false else g) = true
          rw [if_neg hd]
          exact hg
    | finishSend s g cc hbuf0 hcur =>
      intro hbuf
      exfalso
      apply hbuf
      show (applyFinish s cc).writeBuffer = []
      rw [applyFinish_writeBuffer, hbuf0]
    | maybeRemoveStep s g status =>
      intro hbuf
      rcases maybeRemove_spec s status with hn | ⟨hs', t, ht⟩
      · rw [hn] at hbuf ⊢
        exact ih hbuf
      · rw [ht] at hbuf ⊢
        right
        rcases hb : s.writeBuffer with _ | ⟨x, xs⟩
        · exact absurd hb hbuf
        · simp [hb]
    | literalContinueStep s g =>
      intro hbuf
      rcases literalContinue_frame s with hfr | ⟨cc, hfr⟩
      · rw [hfr] at hbuf ⊢
        exact ih hbuf
      · rw [hfr] at hbuf ⊢
        exact Or.inl rfl
    | authenticateContinueStep s g =>
      intro hbuf
      rcases authenticateContinue_frame s with hfr | ⟨cc, hfr⟩
      · rw [hfr] at hbuf ⊢
        exact ih hbuf
      · rw [hfr] at hbuf ⊢
        exact Or.inl rfl
    | setAuthenticateDataStep s g d =>
      intro hbuf
      rcases setAuthenticateData_frame s d with hfr | ⟨cc, hfr⟩
      · rw [hfr] at hbuf ⊢
        exact ih hbuf
      · rw [hfr] at hbuf ⊢
        exact Or.inl rfl
    | idleContinueStep s g =>
      intro hbuf
      rcases idleContinue_frame s with hfr | ⟨cc, hfr⟩
      · rw [hfr] at hbuf ⊢
        exact ih hbuf
      · rw [hfr] at hbuf ⊢
        exact Or.inl rfl
    | setIdleDoneStep s g =>
      intro hbuf
      rcases setIdleDone_frame s with hfr | ⟨cc, hfr⟩
      · rw [hfr] at hbuf ⊢
        exact ih hbuf
      · rw [hfr] at hbuf ⊢
        exact Or.inl rfl

theorem claim_C8_witness :
    sendBufInv (initSend (fun _ => []) (fun _ => []) [], false) :=
  claim_C8 (fun _ => []) (fun _ => []) [] _ SendReachable.init

/-- C10: in every reachable state of the server response send engine — across
every sequence of `enqueue` and `progress` calls, including `progress` futures
dropped at the stream-write suspension point — an absent `current_response`
implies an empty write buffer; hence the assertion at the start of the
empty-state branch of `progress` never fails. -/
theorem claim_C10 {ρ : Type} (enc : ρ → List Fragment) (s : SendResponseState ρ)
    (hreach : RespReachable enc s) : s.currentResponse = none → s.writeBuffer = [] := by
  induction hreach with
  | init => intro _; rfl
  | step hr hs ih =>
    cases hs with
    | enqueue h r =>
      intro hcur
      exact ih hcur
    | startFromQueue entry rest hcur hq =>
      intro hnone
      exact absurd hnone (by simp)
    | flush k =>
      intro hcur
      have hb := ih hcur
      show _ = ([] : List Byte)
      simp [hb]
    | finish entry hbuf hcur =>
      intro _
      exact hbuf

theorem claim_C10_witness :
    (initResp (fun _ : Unit => [])).writeBuffer = ([] : List Byte) :=
  claim_C10 (fun _ : Unit => []) (initResp (fun _ => [])) RespReachable.init rfl

end ImapFlow
